import Mathlib

/-!
Verification of `src/app/client/src/sagas/FormEvaluationSaga.ts`.

The file embeds the saga's data model and control flow as executable Lean
definitions and proves the claimed properties about them.

Modelling conventions:
* JS objects become structures; a possibly-absent / possibly-`undefined` field
  becomes an `Option`.
* A saga is embedded as a pure function from an explicit environment (the
  results of its `select` / `call` effects) and its arguments to its result,
  together with a trace of the externally observable events it emits
  (flag writes, queue pushes, dispatched actions, the network call, ...).
* A statement that can throw a `TypeError` in JS (indexing / destructuring a
  nullish value, the `in` operator on a nullish value) is embedded as a match
  whose nullish branch transfers control to the enclosing `catch` handler
  (or aborts the saga when there is none).
* Machine-level string utilities imported from elsewhere in the repository
  (not under `src/`) are modelled from the spec; each such definition carries
  a doc comment saying so.
-/

/-! ## Character-list string utilities (used by the spec-modelled helpers) -/

/-- Prefix test on strings, computed on the underlying character lists. -/
def strHasPre (s pre : String) : Bool :=
  s.data.take pre.data.length == pre.data

/-- Suffix test on strings, computed on the underlying character lists. -/
def strHasSuf (s suf : String) : Bool :=
  s.data.drop (s.data.length - suf.data.length) == suf.data

/-- Drop the first `n` characters of a string. -/
def strDropN (s : String) (n : Nat) : String := ⟨s.data.drop n⟩

/-- Drop the last `n` characters of a string. -/
def strDropRightN (s : String) (n : Nat) : String :=
  ⟨s.data.take (s.data.length - n)⟩

/-- JS-style association-object indexing `obj[key]`, preserving insertion
order of the entries elsewhere. -/
def alookup {α : Type} (l : List (String × α)) (k : String) : Option α :=
  (l.find? (fun kv => kv.1 == k)).map (·.2)

/-- JS object key update `obj[key] = v`: the entry keeps its position. -/
def updateKey {α : Type} (l : List (String × α)) (k : String) (v : α) :
    List (String × α) :=
  l.map fun kv => if kv.1 == k then (kv.1, v) else kv

/-! ## Data model (from `reducers/evaluationReducers/formEvaluationReducer`
as used by the saga) -/

/-- The `params` component of a dynamic-values config: it may or may not
declare a `parameters` key (an object of parameter name to parameter value,
embedded as an ordered association list). -/
structure Params where
  parameters : Option (List (String × String)) := none
  deriving DecidableEq

/-- The raw (unevaluated) dynamic-values config; `config?.params` may be
absent. -/
structure Config where
  params : Option Params := none
  deriving DecidableEq

/-- The evaluated dynamic-values config: an optional explicit `url` and the
(possibly absent) `params` object. -/
structure EvaluatedConfig where
  url : Option String := none
  params : Option Params := none
  deriving DecidableEq

/-- `DynamicValues`: the lifecycle state and configs of one field's dynamic
value fetch.  The `data` payload is embedded as a list of strings.
`allowedToFetch` is an `Option` because the saga tests key presence
(`"allowedToFetch" in ...`) before reading it. -/
structure DynamicValues where
  hasStarted : Bool := false
  isLoading : Bool := false
  hasFetchFailed : Bool := false
  data : List String := []
  allowedToFetch : Option Bool := none
  config : Option Config := none
  evaluatedConfig : Option EvaluatedConfig := none
  deriving DecidableEq

instance : Inhabited DynamicValues := ⟨{}⟩

/-- `ConditionalOutput`: the per-field evaluation result; only its
`fetchDynamicValues` member is read by the saga.  The saga's two-step test
(`"fetchDynamicValues" in value && !!value.fetchDynamicValues`) collapses to
`isSome` here, since a present-but-`undefined` member behaves like an absent
one. -/
structure ConditionalOutput where
  fetchDynamicValues : Option DynamicValues := none
  deriving DecidableEq

/-- `FormEvalOutput`: field key to `ConditionalOutput`, in insertion order. -/
abbrev FormEvalOutput := List (String × ConditionalOutput)

/-- The action object returned by `select(getAction, actionId)`; only its
`name` is read. -/
structure ActionRef where
  name : String
  deriving DecidableEq

/-- A data-tree entity as the saga reads it: its evaluated-values subtree,
flattened to a mapping from dotted configuration paths to string values.
An entity without an `__evaluation__` member behaves as the empty mapping
(every lookup yields `undefined`), which is observationally identical. -/
structure Entity where
  evaluatedValues : List (String × String) := []
  deriving DecidableEq

/-- The backend response of `PluginsApi.fetchDynamicFormValues`:
`responseMeta.status` and the optional `trigger` member of `data`. -/
structure ApiResponse where
  status : Nat := 200
  trigger : Option (List String) := none
  deriving DecidableEq

/-- Environment of one `fetchDynamicValueSaga` run: results of its `select`
effects and of the backend call (`none` models the call throwing). -/
structure FetchEnv where
  action : Option ActionRef := none
  dataTree : List (String × Entity) := []
  apiResponse : Option ApiResponse := none
  deriving DecidableEq

/-- The request body assembled for `PluginsApi.fetchDynamicFormValues`
(observable at the network boundary). -/
structure FetchRequest where
  url : String
  actionId : String
  configProperty : String
  datasourceId : String
  pluginId : String
  params : Params
  deriving DecidableEq

/-! ## Spec-modelled helpers (repository code not under `src/`) -/

/-- Modelled from the spec: `getDynamicBindings`
(`utils/DynamicBindingUtils`, not under `src/`) extracts the embedded
expressions of a dynamic-binding string; we model its `jsSnippets`
component: for a string enclosed in the binding delimiters, the single inner
expression, otherwise no snippet. -/
def getDynamicBindings (s : String) : List String :=
  if strHasPre s "\x7b\x7b" && strHasSuf s "\x7d\x7d" then
    [strDropRightN (strDropN s 2) 2]
  else []

/-- Modelled from the spec: `getDataTreeActionConfigPath`
(`entities/Action/actionProperties`, not under `src/`) translates an
`actionConfiguration.…` property path into the equivalent path inside the
entity's evaluated-values subtree; per the spec's round-trip example,
`actionConfiguration.formData.x.data` maps to `formData.x.data`.  Lifted to
`Option` because the saga applies it to a possibly-absent first snippet. -/
def getDataTreeActionConfigPath : Option String → Option String
  | none => none
  | some p =>
      some (if strHasPre p "actionConfiguration." then strDropN p 20 else p)

/-- Modelled from the spec: lodash `get` over the evaluated-values subtree,
which we represent as a finite mapping from dotted paths to string values; an
absent path (or an absent path argument) yields no value (`undefined`). -/
def lodashGet (vals : List (String × String)) : Option String → Option String
  | none => none
  | some p => alookup vals p

/-- Modelled from the spec: `isDynamicValue` (`utils/DynamicBindingUtils`,
not under `src/`) recognises a string still enclosed in dynamic-binding
delimiters. -/
def isDynamicValue (s : String) : Bool :=
  strHasPre s "\x7b\x7b" && strHasSuf s "\x7d\x7d"

/-- Modelled from the spec: `PluginsApi.defaultDynamicTriggerURL`
(`api/PluginApi`, not under `src/`) builds the default per-datasource trigger
URL; the exact text is immaterial to every claim, only that it is a function
of the datasource id. -/
def defaultDynamicTriggerURL (datasourceId : String) : String :=
  "default-trigger-url/" ++ datasourceId

/-- JS object-spread merge of two parameter objects: entries of `base`
updated in place by `overrides`, new keys of `overrides` appended in their
own order.  Embeds the spread at the `evaluatedParams` construction site. -/
def spreadMerge (base overrides : List (String × String)) :
    List (String × String) :=
  base.map (fun kv => (kv.1, (alookup overrides kv.1).getD kv.2))
    ++ overrides.filter (fun kv => (alookup base kv.1).isNone)

/-! ## `fetchDynamicValueSaga` (source lines 158-268) -/

/-- The parameter-substitution loop of `fetchDynamicValueSaga` (source lines
200-223): for each declared parameter, extract the first embedded expression
of its dynamic-binding value, translate it to the evaluated-values path, look
the path up, and if the result is truthy record it under the original key —
as the empty string when it is itself still a dynamic-binding expression. -/
def substituteStep (evaluatedValues : List (String × String))
    (substitutedParameters : List (String × String)) (kv : String × String) :
    List (String × String) :=
  let dynamicBindingValue := (getDynamicBindings kv.2).head?
  let path := getDataTreeActionConfigPath dynamicBindingValue
  match lodashGet evaluatedValues path with
  | some evaluatedValue =>
      if evaluatedValue == "" then substitutedParameters
      else
        substitutedParameters ++
          [(kv.1, if isDynamicValue evaluatedValue then "" else evaluatedValue)]
  | none => substitutedParameters

/-- The whole `forEach` (source lines 200-223), starting from the empty
substituted-parameter object. -/
def substituteParams (evaluatedValues : List (String × String))
    (parameters : List (String × String)) : List (String × String) :=
  parameters.foldl (substituteStep evaluatedValues) []

/-- `fetchDynamicValueSaga` (fetchOne).  Returns the final
`dynamicFetchedValues` object together with the request sent to the backend
(`none` when control reached the `catch` handler before the response was
processed).  The `failWith` helper is the `catch` block (source lines
261-266): it receives the `dynamicFetchedValues` object as mutated so far. -/
def fetchDynamicValueSaga (env : FetchEnv) (value : ConditionalOutput)
    (dynamicFetchedValues : DynamicValues)
    (actionId datasourceId pluginId configProperty : String) :
    DynamicValues × Option FetchRequest :=
  let failWith : DynamicValues → DynamicValues × Option FetchRequest :=
    fun d => ({ d with hasFetchFailed := true, isLoading := false, data := [] }, none)
  -- const { config, evaluatedConfig } = value.fetchDynamicValues  (throws on nullish)
  match value.fetchDynamicValues with
  | none => failWith dynamicFetchedValues
  | some fdv =>
    -- const { params } = evaluatedConfig  (throws on nullish evaluatedConfig)
    match fdv.evaluatedConfig with
    | none => failWith dynamicFetchedValues
    | some evaluatedConfig =>
      let params := evaluatedConfig.params
      let d1 := { dynamicFetchedValues with hasStarted := true }
      let url :=
        match evaluatedConfig.url with
        | some u => if u.data.length > 0 then u else defaultDynamicTriggerURL datasourceId
        | none => defaultDynamicTriggerURL datasourceId
      let evalAction : Option Entity :=
        match env.action with
        | some a => alookup env.dataTree a.name
        | none => none
      -- "parameters" in config?.params  (throws when config or config.params is nullish)
      match fdv.config with
      | none => failWith d1
      | some config =>
        match config.params with
        | none => failWith d1
        | some configParams =>
          let substitutedParameters : List (String × String) :=
            match configParams.parameters, evalAction with
            | some ps, some ea => substituteParams ea.evaluatedValues ps
            | _, _ => []
          -- "parameters" in params  (throws when params is nullish)
          match params with
          | none => failWith d1
          | some ps =>
            let evaluatedParams : Params :=
              match ps.parameters with
              | some base =>
                  { parameters := some (spreadMerge base substitutedParameters) }
              | none => { parameters := none }
            match env.apiResponse with
            | none => failWith d1
            | some response =>
              let req : FetchRequest :=
                { url := url, actionId := actionId,
                  configProperty := configProperty,
                  datasourceId := datasourceId, pluginId := pluginId,
                  params := evaluatedParams }
              let d2 := { d1 with isLoading := false }
              -- response.responseMeta.status === 200 && "trigger" in response.data
              if response.status == 200 && response.trigger.isSome then
                ({ d2 with data := response.trigger.getD [], hasFetchFailed := false },
                 some req)
              else
                ({ d2 with hasFetchFailed := true, data := [] }, some req)

/-! ## Events and the request sequencer (`setFormEvaluationSagaAsync`) -/

/-- The payload of a form-evaluation redux action as far as the saga's
control flow reads it: the target form id and the optional datasource /
plugin ids.  The remaining payload members (configs, diff path, ...) are
passed through to the evaluation function unchanged and never inspected by
the saga itself. -/
structure FormEvalAction where
  formId : String
  datasourceId : Option String := none
  pluginId : Option String := none
  deriving DecidableEq

/-- Externally observable events of a saga run, in order: queue pushes, busy
flag writes, the evaluation call's start and end, dispatched
`SET_FORM_EVALUATION` publishes, logged errors, forks of the next queued
request, the readiness race and settle delay, the invocation of the dynamic
value fetcher with its exact arguments, and individual fetch attempts. -/
inductive Ev where
  | enqueued (a : FormEvalAction)
  | busy (b : Bool)
  | evalStart (a : FormEvalAction)
  | evalEnd
  | publish (m : List (String × FormEvalOutput))
  | errorLogged
  | forkNext (a : FormEvalAction)
  | raceWait
  | settleDelay
  | cascadeStart (queue : List (String × ConditionalOutput)) (formId : String)
      (evalOutput : FormEvalOutput) (datasourceId pluginId : String)
  | fetchAttempt (key : String)
  deriving DecidableEq

/-- `extractQueueOfValuesToBeFetched` (source lines 49-62): the fields whose
`fetchDynamicValues` is present with a truthy `allowedToFetch`, in the
mapping's insertion order. -/
def extractQueueOfValuesToBeFetched (evalOutput : FormEvalOutput) :
    List (String × ConditionalOutput) :=
  evalOutput.filter fun kv =>
    match kv.2.fetchDynamicValues with
    | some dv => dv.allowedToFetch.getD false
    | none => false

/-- Object.assign(\x7b\x7d, dv): a shallow copy of a `DynamicValues` object;
copying `undefined` yields the empty object, whose absent members read back
as falsy / absent. -/
def objAssignCopy : Option DynamicValues → DynamicValues
  | some dv => dv
  | none => {}

/-- The `for (const key of Object.keys(...))` loop of
`fetchDynamicValuesSaga` (source lines 140-150): sequentially invoke
`fetchDynamicValueSaga` on a shallow copy of `evalOutput[key].fetchDynamicValues`
and overwrite that member with the result.  Returns `none` when an iteration
threw (reading `fetchDynamicValues` of an absent `evalOutput[key]`), aborting
the loop; the trace records one `fetchAttempt` per invocation. -/
def fetchLoop (env : String → FetchEnv)
    (formId datasourceId pluginId : String) :
    List (String × ConditionalOutput) → FormEvalOutput →
    Option FormEvalOutput × List Ev
  | [], evalOutput => (some evalOutput, [])
  | (key, value) :: rest, evalOutput =>
    match alookup evalOutput key with
    | none => (none, [])
    | some co =>
      let result :=
        (fetchDynamicValueSaga (env key) value
          (objAssignCopy co.fetchDynamicValues)
          formId datasourceId pluginId key).1
      let evalOutput' :=
        updateKey evalOutput key { co with fetchDynamicValues := some result }
      let next := fetchLoop env formId datasourceId pluginId rest evalOutput'
      (next.1, Ev.fetchAttempt key :: next.2)

/-- `fetchDynamicValuesSaga` (fetchAll, source lines 133-156): run the loop
over the pending queue, then publish the mutated `evalOutput` for this form,
once.  A thrown iteration propagates (`none`) with no publish. -/
def fetchDynamicValuesSaga (env : String → FetchEnv)
    (queueOfValuesToBeFetched : List (String × ConditionalOutput))
    (formId : String) (evalOutput : FormEvalOutput)
    (datasourceId pluginId : String) :
    Option FormEvalOutput × List Ev :=
  match fetchLoop env formId datasourceId pluginId queueOfValuesToBeFetched
      evalOutput with
  | (some evalOutput', t) =>
      (some evalOutput', t ++ [Ev.publish [(formId, evalOutput')]])
  | (none, t) => (none, t)

/-- Environment of one evaluation cycle of `setFormEvaluationSagaAsync`:
whether `select(getFormEvaluationState)` throws, the result of
`call(evalFormConfig, ...)` (`Except.error` models it throwing, `Except.ok
none` a nullish worker response, `Except.ok (some m)` a response object),
whether the `put` of the response throws, and the requests submitted by
concurrent `submit` calls while this cycle's evaluation call was suspended
(each such call hits the busy branch and appends to the queue). -/
structure CycleEnv where
  selectThrows : Bool := false
  evalResult : Except Unit (Option (List (String × FormEvalOutput))) := .ok none
  putThrows : Bool := false
  arrivals : List FormEvalAction := []

/-- The sequencer's module-level mutable state: the `isEvaluating` flag
(source line 28) and the `evalQueue` array (source line 41). -/
structure SeqState where
  isEvaluating : Bool := false
  evalQueue : List FormEvalAction := []
  deriving DecidableEq

/-- `setFormEvaluationSagaAsync` (source lines 64-130) as one deterministic
run of the whole fork chain: processing request `a` against state `st`,
consuming `envs ix`, `envs (ix + 1)`, ... one per cycle.  `fuel` bounds the
chain length (the embedding artifact standing in for unbounded recursion: a
fuel-exhausted fork simply does not run, leaving state and trace as they
are).  The dynamic-value fetch cascade is recorded as its observable events
(the readiness race, the settle delay, the invocation of
`fetchDynamicValuesSaga` with its exact arguments); the cascade's internal
behaviour is verified separately on `fetchDynamicValuesSaga`. -/
def setFormEvaluationSagaAsync (envs : Nat → CycleEnv) :
    Nat → Nat → SeqState → FormEvalAction → SeqState × List Ev
  | fuel, ix, st, a =>
    if st.isEvaluating then
      -- lines 68-70: busy, so push onto evalQueue and return
      ({ st with evalQueue := st.evalQueue ++ [a] }, [Ev.enqueued a])
    else
      match fuel with
      | 0 => (st, [])
      | fuel' + 1 =>
        let env := envs ix
        if env.selectThrows then
          -- throw in `select` at line 75: caught at line 125
          ({ isEvaluating := false, evalQueue := st.evalQueue },
           [Ev.busy true, Ev.errorLogged, Ev.busy false])
        else
          match env.evalResult with
          | .error _ =>
            -- throw in `call(evalFormConfig, ...)`: caught at line 125
            ({ isEvaluating := false, evalQueue := st.evalQueue ++ env.arrivals },
             [Ev.busy true, Ev.evalStart a] ++ env.arrivals.map Ev.enqueued
               ++ [Ev.errorLogged, Ev.busy false])
          | .ok workerResponse =>
            let q1 := st.evalQueue ++ env.arrivals
            let pre := [Ev.busy true, Ev.evalStart a]
              ++ env.arrivals.map Ev.enqueued ++ [Ev.evalEnd]
            match workerResponse with
            | none =>
              -- falsy workerResponse: the publish at lines 85-88 is skipped
              match q1 with
              | b :: rest =>
                let next := setFormEvaluationSagaAsync envs fuel' (ix + 1)
                  { isEvaluating := false, evalQueue := rest } b
                (next.1, pre ++ [Ev.busy false, Ev.forkNext b] ++ next.2)
              | [] =>
                -- line 100 indexes the nullish workerResponse: TypeError,
                -- caught at line 125
                ({ isEvaluating := false, evalQueue := [] },
                 pre ++ [Ev.busy false, Ev.errorLogged, Ev.busy false])
            | some m =>
              if env.putThrows then
                -- throw in `put`: caught at line 125, before line 90 ran
                ({ isEvaluating := false, evalQueue := q1 },
                 pre ++ [Ev.errorLogged, Ev.busy false])
              else
                let pre2 := pre ++ [Ev.publish m, Ev.busy false]
                match q1 with
                | b :: rest =>
                  -- lines 92-96: shift the oldest entry and fork it
                  let next := setFormEvaluationSagaAsync envs fuel' (ix + 1)
                    { isEvaluating := false, evalQueue := rest } b
                  (next.1, pre2 ++ [Ev.forkNext b] ++ next.2)
                | [] =>
                  -- lines 98-123: extract and, when the form's output is an
                  -- object, race the readiness signals, delay, and invoke
                  -- the fetcher — whether or not the extracted queue is empty
                  match alookup m a.formId with
                  | some evalOutput =>
                    ({ isEvaluating := false, evalQueue := [] },
                     pre2 ++ [Ev.raceWait, Ev.settleDelay,
                       Ev.cascadeStart
                         (extractQueueOfValuesToBeFetched evalOutput)
                         a.formId evalOutput
                         (a.datasourceId.getD "") (a.pluginId.getD "")])
                  | none =>
                    ({ isEvaluating := false, evalQueue := [] }, pre2)

/-! ## Heap model of the fetch loop's aliasing (for the frame property) -/

/-- A heap of `DynamicValues` objects; an address is an index into `cells`. -/
structure DVHeap where
  cells : List DynamicValues
  deriving DecidableEq

/-- Read the object at address `a`. -/
def DVHeap.read (h : DVHeap) (a : Nat) : DynamicValues := h.cells.getD a {}

/-- Overwrite the object at address `a`. -/
def DVHeap.write (h : DVHeap) (a : Nat) (v : DynamicValues) : DVHeap :=
  ⟨h.cells.set a v⟩

/-- Allocate a fresh object, returning the new heap and its address. -/
def DVHeap.alloc (h : DVHeap) (v : DynamicValues) : DVHeap × Nat :=
  (⟨h.cells ++ [v]⟩, h.cells.length)

/-- The fetch loop with the JS object aliasing made explicit: here
`evalOutput` maps a field key to the ADDRESS of the `DynamicValues` object
its `fetchDynamicValues` member references.  Each iteration allocates the
`Object.assign` shallow copy as a fresh object, lets `fetchDynamicValueSaga`
mutate only that copy (its returned value overwrites the copy's cell), and
re-points `evalOutput[key].fetchDynamicValues` at the copy.  A missing key
stops the loop (the JS TypeError path). -/
def fetchLoopHeap (env : String → FetchEnv)
    (formId datasourceId pluginId : String) :
    List (String × ConditionalOutput) → List (String × Nat) → DVHeap →
    List (String × Nat) × DVHeap
  | [], evalOutput, h => (evalOutput, h)
  | (key, value) :: rest, evalOutput, h =>
    match alookup evalOutput key with
    | none => (evalOutput, h)
    | some addr =>
      let copyAlloc := h.alloc (h.read addr)
      let result :=
        (fetchDynamicValueSaga (env key) value (copyAlloc.1.read copyAlloc.2)
          formId datasourceId pluginId key).1
      let h2 := copyAlloc.1.write copyAlloc.2 result
      fetchLoopHeap env formId datasourceId pluginId rest
        (updateKey evalOutput key copyAlloc.2) h2

/-! ## Trace-analysis helpers -/

/-- The requests whose evaluation call actually started, in trace order. -/
def processedOf (t : List Ev) : List FormEvalAction :=
  t.filterMap fun e => match e with | Ev.evalStart a => some a | _ => none

/-- The requests pushed onto the queue by concurrent submits, in trace
(equals arrival) order. -/
def enqueuedOf (t : List Ev) : List FormEvalAction :=
  t.filterMap fun e => match e with | Ev.enqueued a => some a | _ => none

/-- Start / end marks of the evaluation computations, in trace order. -/
def compMarks (t : List Ev) : List Bool :=
  t.filterMap fun e =>
    match e with
    | Ev.evalStart _ => some true
    | Ev.evalEnd => some false
    | _ => none

/-- `isAlternating e l`: `l` alternates starting with the expected value
`e` — no computation starts before the previous one ended. -/
def isAlternating : Bool → List Bool → Bool
  | _, [] => true
  | e, b :: r => (b == e) && isAlternating (!e) r

/-- Scan a trace tracking the busy flag (initial value `b`); require the
flag to be true at every `evalStart` and false at every `cascadeStart`. -/
def busyDiscipline : Bool → List Ev → Bool
  | _, [] => true
  | b, e :: r =>
    match e with
    | Ev.busy v => busyDiscipline v r
    | Ev.evalStart _ => b && busyDiscipline b r
    | Ev.cascadeStart _ _ _ _ _ => (!b) && busyDiscipline b r
    | _ => busyDiscipline b r

/-- The busy flag after scanning a trace whose initial flag value is `b`. -/
def busyAfter (b : Bool) (t : List Ev) : Bool :=
  t.foldl (fun acc e => match e with | Ev.busy v => v | _ => acc) b

/-- The busy-flag condition the spec claims for the fetch cascade: scanning
the trace, the flag is TRUE ("held") at every `cascadeStart`. -/
def cascadeUnderBusy : Bool → List Ev → Bool
  | _, [] => true
  | b, e :: r =>
    match e with
    | Ev.busy v => cascadeUnderBusy v r
    | Ev.cascadeStart _ _ _ _ _ => b && cascadeUnderBusy b r
    | _ => cascadeUnderBusy b r

/-! ## Lemmas about the substitution loop -/

theorem substituteStep_append (ev acc : List (String × String))
    (kv : String × String) :
    substituteStep ev acc kv = acc ++ substituteStep ev [] kv := by
  simp only [substituteStep]
  cases hv : lodashGet ev
      (getDataTreeActionConfigPath (getDynamicBindings kv.2).head?) with
  | none => simp
  | some v =>
    by_cases h : (v == "") = true
    · simp [h]
    · simp [h]

theorem substituteParams_foldl_acc (ev : List (String × String)) :
    ∀ (ps acc : List (String × String)),
      ps.foldl (substituteStep ev) acc = acc ++ ps.foldl (substituteStep ev) [] := by
  intro ps
  induction ps with
  | nil => intro acc; simp
  | cons kv rest ih =>
    intro acc
    simp only [List.foldl_cons]
    rw [substituteStep_append, ih, ih (substituteStep ev [] kv)]
    simp

theorem substituteParams_append (ev l1 l2 : List (String × String)) :
    substituteParams ev (l1 ++ l2) =
      substituteParams ev l1 ++ substituteParams ev l2 := by
  simp only [substituteParams, List.foldl_append]
  rw [substituteParams_foldl_acc]

theorem substituteParams_cons (ev : List (String × String))
    (kv : String × String) (rest : List (String × String)) :
    substituteParams ev (kv :: rest) =
      substituteStep ev [] kv ++ substituteParams ev rest := by
  simp only [substituteParams, List.foldl_cons]
  rw [substituteParams_foldl_acc]

/-! ## Claim theorems: the per-field fetch (`fetchDynamicValueSaga`) -/

/-- C4: for every invocation of `fetchDynamicValueSaga`, the returned
`DynamicValuesState` satisfies: the returned `isLoading` is false in every
case; whenever control reached the `catch` handler (no request was completed,
`r.2 = none`), `hasFetchFailed = true` and `data = []`; and whenever the
backend call was reached, a response with status 200 and a `trigger` member
yields `data = payload` with `hasFetchFailed = false`, while any other
response yields `hasFetchFailed = true` and `data = []`. -/
theorem fetchDynamicValueSaga_spec (env : FetchEnv) (value : ConditionalOutput)
    (dfv : DynamicValues)
    (actionId datasourceId pluginId configProperty : String) :
    (fetchDynamicValueSaga env value dfv actionId datasourceId pluginId
        configProperty).1.isLoading = false ∧
    ((fetchDynamicValueSaga env value dfv actionId datasourceId pluginId
        configProperty).2 = none →
      (fetchDynamicValueSaga env value dfv actionId datasourceId pluginId
          configProperty).1.hasFetchFailed = true ∧
      (fetchDynamicValueSaga env value dfv actionId datasourceId pluginId
          configProperty).1.data = []) ∧
    (∀ fdv ec cfg cps ps resp,
      value.fetchDynamicValues = some fdv →
      fdv.evaluatedConfig = some ec →
      fdv.config = some cfg →
      cfg.params = some cps →
      ec.params = some ps →
      env.apiResponse = some resp →
      ((resp.status = 200 → resp.trigger.isSome = true →
          (fetchDynamicValueSaga env value dfv actionId datasourceId pluginId
              configProperty).1.data = resp.trigger.getD [] ∧
          (fetchDynamicValueSaga env value dfv actionId datasourceId pluginId
              configProperty).1.hasFetchFailed = false) ∧
       (¬(resp.status = 200 ∧ resp.trigger.isSome = true) →
          (fetchDynamicValueSaga env value dfv actionId datasourceId pluginId
              configProperty).1.hasFetchFailed = true ∧
          (fetchDynamicValueSaga env value dfv actionId datasourceId pluginId
              configProperty).1.data = []))) := by
  refine ⟨?_, ?_, ?_⟩
  · unfold fetchDynamicValueSaga
    repeat' (first | split | simp)
  · intro h2
    revert h2
    unfold fetchDynamicValueSaga
    repeat' (first | split | simp)
  · intro fdv ec cfg cps ps resp hv he hc hcp hp hr
    constructor
    · intro hs ht
      simp [fetchDynamicValueSaga, hv, he, hc, hcp, hp, hr, hs, ht]
    · intro hno
      have hcond : (resp.status == 200 && resp.trigger.isSome) = false := by
        by_cases h1 : resp.status = 200
        · by_cases h2 : resp.trigger.isSome = true
          · exact absurd ⟨h1, h2⟩ hno
          · simp [h2]
        · simp [h1]
      simp [fetchDynamicValueSaga, hv, he, hc, hcp, hp, hr, hcond]

/-- Witness for C4 at a concrete successful fetch. -/
theorem fetchDynamicValueSaga_spec_witness :
    let env : FetchEnv :=
      { apiResponse := some { status := 200, trigger := some ["1", "2"] } }
    let value : ConditionalOutput :=
      { fetchDynamicValues := some
          { evaluatedConfig := some { params := some {} },
            config := some { params := some {} } } }
    (fetchDynamicValueSaga env value {} "a1" "d1" "p1" "k1").1.isLoading = false ∧
    (fetchDynamicValueSaga env value {} "a1" "d1" "p1" "k1").1.data = ["1", "2"] ∧
    (fetchDynamicValueSaga env value {} "a1" "d1" "p1" "k1").1.hasFetchFailed
      = false := by
  intro env value
  have h := fetchDynamicValueSaga_spec env value {} "a1" "d1" "p1" "k1"
  have h3 := (h.2.2 _ _ _ _ _ _ rfl rfl rfl rfl rfl rfl).1 rfl rfl
  exact ⟨h.1, h3.1, h3.2⟩

/-- C10: when the `ConditionalOutput` given to `fetchDynamicValueSaga` has no
`fetchDynamicValues` value, the initial destructuring throws before any flag
is written, and the saga returns the incoming object with
`hasFetchFailed = true`, `isLoading = false`, `data = []` — with `hasStarted`
still at its incoming value. -/
theorem fetchDynamicValueSaga_missing_fetchDynamicValues (env : FetchEnv)
    (value : ConditionalOutput) (dfv : DynamicValues)
    (actionId datasourceId pluginId configProperty : String)
    (h : value.fetchDynamicValues = none) :
    fetchDynamicValueSaga env value dfv actionId datasourceId pluginId
        configProperty =
      ({ dfv with hasFetchFailed := true, isLoading := false, data := [] },
       none) ∧
    (fetchDynamicValueSaga env value dfv actionId datasourceId pluginId
        configProperty).1.hasStarted = dfv.hasStarted := by
  have h1 : fetchDynamicValueSaga env value dfv actionId datasourceId pluginId
      configProperty =
      ({ dfv with hasFetchFailed := true, isLoading := false, data := [] },
       none) := by
    simp [fetchDynamicValueSaga, h]
  exact ⟨h1, by rw [h1]⟩

/-- Witness for C10: a concrete call with an absent `fetchDynamicValues`
and `hasStarted` incoming as false stays false. -/
theorem fetchDynamicValueSaga_missing_fetchDynamicValues_witness :
    fetchDynamicValueSaga {} { fetchDynamicValues := none }
        { hasStarted := false, isLoading := true } "a1" "d1" "p1" "k1" =
      ({ hasStarted := false, isLoading := false, hasFetchFailed := true,
         data := [] },
       none) := by
  exact (fetchDynamicValueSaga_missing_fetchDynamicValues {} _ _
    "a1" "d1" "p1" "k1" rfl).1

/-! ## Small trace lemmas -/

theorem processedOf_append (t1 t2 : List Ev) :
    processedOf (t1 ++ t2) = processedOf t1 ++ processedOf t2 := by
  simp [processedOf]

theorem processedOf_map_enqueued (l : List FormEvalAction) :
    processedOf (l.map Ev.enqueued) = [] := by
  induction l with
  | nil => rfl
  | cons x xs ih => simp [processedOf, List.filterMap_cons, ih]

theorem enqueuedOf_append (t1 t2 : List Ev) :
    enqueuedOf (t1 ++ t2) = enqueuedOf t1 ++ enqueuedOf t2 := by
  simp [enqueuedOf]

theorem enqueuedOf_map_enqueued (l : List FormEvalAction) :
    enqueuedOf (l.map Ev.enqueued) = l := by
  induction l with
  | nil => rfl
  | cons x xs ih => simpa [enqueuedOf, List.filterMap_cons] using ih

theorem compMarks_append (t1 t2 : List Ev) :
    compMarks (t1 ++ t2) = compMarks t1 ++ compMarks t2 := by
  simp [compMarks]

theorem compMarks_map_enqueued (l : List FormEvalAction) :
    compMarks (l.map Ev.enqueued) = [] := by
  induction l with
  | nil => rfl
  | cons x xs ih => simp [compMarks, List.filterMap_cons, ih]

/-! ## Claim theorems: the request sequencer -/

/-- C2: a `submit` (`setFormEvaluationSagaAsync`) while the busy flag is set
appends the request to the END of the queue and returns at once — no
evaluation call, no publish, no busy-flag change, no other event; a submit
while the flag is clear first sets busy = true and runs the evaluation
cycle (in particular the evaluation function is invoked whenever the
initial state read did not throw). -/
theorem setFormEvaluationSagaAsync_submit (envs : Nat → CycleEnv)
    (fuel ix : Nat) (st : SeqState) (a : FormEvalAction) :
    (st.isEvaluating = true →
      setFormEvaluationSagaAsync envs fuel ix st a =
        ({ st with evalQueue := st.evalQueue ++ [a] }, [Ev.enqueued a])) ∧
    (st.isEvaluating = false → 0 < fuel →
      (setFormEvaluationSagaAsync envs fuel ix st a).2.head? =
        some (Ev.busy true) ∧
      ((envs ix).selectThrows = false →
        Ev.evalStart a ∈ (setFormEvaluationSagaAsync envs fuel ix st a).2)) := by
  constructor
  · intro h
    cases fuel with
    | zero => simp [setFormEvaluationSagaAsync, h]
    | succ n => simp [setFormEvaluationSagaAsync, h]
  · intro h hf
    cases fuel with
    | zero => exact absurd hf (by simp)
    | succ n =>
      constructor
      · unfold setFormEvaluationSagaAsync
        simp only [h]
        repeat' (first | split | simp_all)
      · intro hsel
        unfold setFormEvaluationSagaAsync
        simp only [h]
        repeat' (first | split | simp_all)

/-- Witness for C2: both branches at concrete inputs. -/
theorem setFormEvaluationSagaAsync_submit_witness :
    (setFormEvaluationSagaAsync (fun _ => {}) 1 0
        { isEvaluating := true, evalQueue := [] } { formId := "g" } =
      ({ isEvaluating := true, evalQueue := [{ formId := "g" }] },
       [Ev.enqueued { formId := "g" }])) ∧
    (setFormEvaluationSagaAsync (fun _ => {}) 1 0
        { isEvaluating := false, evalQueue := [] } { formId := "g" }).2.head? =
      some (Ev.busy true) := by
  constructor
  · exact (setFormEvaluationSagaAsync_submit (fun _ => {}) 1 0
      { isEvaluating := true, evalQueue := [] } { formId := "g" }).1 rfl
  · exact ((setFormEvaluationSagaAsync_submit (fun _ => {}) 1 0
      { isEvaluating := false, evalQueue := [] } { formId := "g" }).2 rfl
      (by decide)).1

/-- C6: within one evaluation cycle, a falsy worker response produces no
state publish, yet the queue is still drained — the busy flag ends false and
the next queued request, if any, is dequeued and forked; a non-empty worker
response is published as the full evaluation-state update. -/
theorem setFormEvaluationSagaAsync_workerResponse (env : CycleEnv)
    (st : SeqState) (a : FormEvalAction)
    (hb : st.isEvaluating = false) (hs : env.selectThrows = false) :
    (env.evalResult = .ok none →
      (∀ m, Ev.publish m ∉
          (setFormEvaluationSagaAsync (fun _ => env) 1 0 st a).2) ∧
      (setFormEvaluationSagaAsync (fun _ => env) 1 0 st a).1.isEvaluating
        = false ∧
      (∀ b rest, st.evalQueue ++ env.arrivals = b :: rest →
        Ev.forkNext b ∈ (setFormEvaluationSagaAsync (fun _ => env) 1 0 st a).2 ∧
        (setFormEvaluationSagaAsync (fun _ => env) 1 0 st a).1.evalQueue
          = rest)) ∧
    (∀ m, env.evalResult = .ok (some m) → env.putThrows = false →
      Ev.publish m ∈ (setFormEvaluationSagaAsync (fun _ => env) 1 0 st a).2) := by
  constructor
  · intro hres
    cases hq : st.evalQueue ++ env.arrivals with
    | nil =>
      refine ⟨?_, ?_, ?_⟩
      · intro m
        simp [setFormEvaluationSagaAsync, hb, hs, hres, hq]
      · simp [setFormEvaluationSagaAsync, hb, hs, hres, hq]
      · intro b rest hcontra
        exact absurd hcontra (by simp)
    | cons b0 rest0 =>
      refine ⟨?_, ?_, ?_⟩
      · intro m
        simp [setFormEvaluationSagaAsync, hb, hs, hres, hq]
      · simp [setFormEvaluationSagaAsync, hb, hs, hres, hq]
      · intro b rest hbr
        injection hbr with h1 h2
        subst h1; subst h2
        constructor
        · simp [setFormEvaluationSagaAsync, hb, hs, hres, hq]
        · simp [setFormEvaluationSagaAsync, hb, hs, hres, hq]
  · intro m hres hput
    cases hq : st.evalQueue ++ env.arrivals with
    | nil =>
      cases hl : alookup m a.formId with
      | none => simp [setFormEvaluationSagaAsync, hb, hs, hres, hput, hq, hl]
      | some eo => simp [setFormEvaluationSagaAsync, hb, hs, hres, hput, hq, hl]
    | cons b0 rest0 =>
      simp [setFormEvaluationSagaAsync, hb, hs, hres, hput, hq]

/-- Witness for C6: falsy response with one queued request — no publish,
flag cleared, queued request forked. -/
theorem setFormEvaluationSagaAsync_workerResponse_witness :
    (∀ m, Ev.publish m ∉
        (setFormEvaluationSagaAsync
          (fun _ => { evalResult := .ok none,
                      arrivals := [{ formId := "g2" }] }) 1 0
          { isEvaluating := false, evalQueue := [] } { formId := "g1" }).2) ∧
    Ev.forkNext { formId := "g2" } ∈
      (setFormEvaluationSagaAsync
        (fun _ => { evalResult := .ok none,
                    arrivals := [{ formId := "g2" }] }) 1 0
        { isEvaluating := false, evalQueue := [] } { formId := "g1" }).2 := by
  have h := setFormEvaluationSagaAsync_workerResponse
    { evalResult := .ok none, arrivals := [{ formId := "g2" }] }
    { isEvaluating := false, evalQueue := [] } { formId := "g1" } rfl rfl
  exact ⟨(h.1 rfl).1, ((h.1 rfl).2.2 { formId := "g2" } [] rfl).1⟩

/-- C8: if the state read, the evaluation call or the publish throws, the
error is logged, the busy flag is reset to false, and the queue is left
unchanged — beyond the concurrent arrivals that were appended while the
evaluation call was suspended, nothing is removed: no queued request is
dequeued or forked, the cascade never runs, and the failed request is not
retried (at most its one evaluation start appears in the trace). -/
theorem setFormEvaluationSagaAsync_errorPath (env : CycleEnv) (st : SeqState)
    (a : FormEvalAction) (hb : st.isEvaluating = false)
    (herr : env.selectThrows = true ∨ env.evalResult = .error () ∨
      (env.putThrows = true ∧ ∃ m, env.evalResult = .ok (some m))) :
    (setFormEvaluationSagaAsync (fun _ => env) 1 0 st a).1.isEvaluating
      = false ∧
    Ev.errorLogged ∈ (setFormEvaluationSagaAsync (fun _ => env) 1 0 st a).2 ∧
    (∀ b, Ev.forkNext b ∉
      (setFormEvaluationSagaAsync (fun _ => env) 1 0 st a).2) ∧
    (∀ q f eo d p, Ev.cascadeStart q f eo d p ∉
      (setFormEvaluationSagaAsync (fun _ => env) 1 0 st a).2) ∧
    (processedOf (setFormEvaluationSagaAsync (fun _ => env) 1 0 st a).2).length
      ≤ 1 ∧
    (env.selectThrows = true →
      (setFormEvaluationSagaAsync (fun _ => env) 1 0 st a).1.evalQueue
        = st.evalQueue) ∧
    (env.selectThrows = false →
      (setFormEvaluationSagaAsync (fun _ => env) 1 0 st a).1.evalQueue
        = st.evalQueue ++ env.arrivals) := by
  rcases herr with hsel | hres | ⟨hput, m, hres⟩
  · refine ⟨?_, ?_, ?_, ?_, ?_, ?_, ?_⟩ <;>
      simp [setFormEvaluationSagaAsync, hb, hsel, processedOf]
  · by_cases hsel : env.selectThrows = true
    · refine ⟨?_, ?_, ?_, ?_, ?_, ?_, ?_⟩ <;>
        simp [setFormEvaluationSagaAsync, hb, hsel, processedOf]
    · replace hsel : env.selectThrows = false := by
        cases h : env.selectThrows
        · rfl
        · exact absurd h hsel
      refine ⟨?_, ?_, ?_, ?_, ?_, ?_, ?_⟩ <;>
        simp [setFormEvaluationSagaAsync, hb, hsel, hres, processedOf,
          processedOf_append, processedOf_map_enqueued, List.filterMap_cons]
  · by_cases hsel : env.selectThrows = true
    · refine ⟨?_, ?_, ?_, ?_, ?_, ?_, ?_⟩ <;>
        simp [setFormEvaluationSagaAsync, hb, hsel, processedOf]
    · replace hsel : env.selectThrows = false := by
        cases h : env.selectThrows
        · rfl
        · exact absurd h hsel
      refine ⟨?_, ?_, ?_, ?_, ?_, ?_, ?_⟩ <;>
        simp [setFormEvaluationSagaAsync, hb, hsel, hres, hput, processedOf,
          processedOf_append, processedOf_map_enqueued, List.filterMap_cons]

/-- Witness for C8: a concrete throwing evaluation call with one queued
request: flag reset, error logged, queue kept. -/
theorem setFormEvaluationSagaAsync_errorPath_witness :
    (setFormEvaluationSagaAsync (fun _ => { evalResult := .error () }) 1 0
        { isEvaluating := false, evalQueue := [{ formId := "g2" }] }
        { formId := "g1" }).1.isEvaluating = false ∧
    (setFormEvaluationSagaAsync (fun _ => { evalResult := .error () }) 1 0
        { isEvaluating := false, evalQueue := [{ formId := "g2" }] }
        { formId := "g1" }).1.evalQueue = [{ formId := "g2" }] := by
  have h := setFormEvaluationSagaAsync_errorPath { evalResult := .error () }
    { isEvaluating := false, evalQueue := [{ formId := "g2" }] }
    { formId := "g1" } rfl (Or.inr (Or.inl rfl))
  exact ⟨h.1, by simpa using h.2.2.2.2.2.2 rfl⟩

/-! ## Claim theorems: parameter substitution round-trip -/

/-- C7: the dynamic-binding expression
`\x7b\x7bactionConfiguration.formData.x.data\x7d\x7d` is translated to the
configuration path `formData.x.data`; for every declared parameter, if the
translated path is absent from the evaluated values the parameter is omitted
from the substituted set, and if the looked-up value is itself still a
dynamic-binding expression the empty string is substituted (unresolved
expressions are never forwarded), while a plain non-empty value is forwarded
under the original parameter key. -/
theorem substituteParams_roundTrip :
    getDataTreeActionConfigPath
        ((getDynamicBindings
            "\x7b\x7bactionConfiguration.formData.x.data\x7d\x7d").head?) =
      some "formData.x.data" ∧
    ∀ (ev pre post : List (String × String)) (k expr path : String),
      getDataTreeActionConfigPath ((getDynamicBindings expr).head?) = some path →
      ((alookup ev path = none →
          substituteParams ev (pre ++ (k, expr) :: post) =
            substituteParams ev pre ++ substituteParams ev post) ∧
       (∀ v, alookup ev path = some v → isDynamicValue v = true →
          substituteParams ev (pre ++ (k, expr) :: post) =
            substituteParams ev pre ++ [(k, "")] ++ substituteParams ev post) ∧
       (∀ v, alookup ev path = some v → isDynamicValue v = false → v ≠ "" →
          substituteParams ev (pre ++ (k, expr) :: post) =
            substituteParams ev pre ++ [(k, v)] ++ substituteParams ev post)) := by
  constructor
  · decide
  · intro ev pre post k expr path hb
    have hsplit : substituteParams ev (pre ++ (k, expr) :: post) =
        substituteParams ev pre ++
          (substituteStep ev [] (k, expr) ++ substituteParams ev post) := by
      rw [substituteParams_append, substituteParams_cons]
    refine ⟨?_, ?_, ?_⟩
    · intro hnone
      have hmid : substituteStep ev [] (k, expr) = [] := by
        simp [substituteStep, hb, lodashGet, hnone]
      rw [hsplit, hmid]
      simp
    · intro v hv hdyn
      have hne : (v == "") = false := by
        cases h : v == "" with
        | false => rfl
        | true =>
          exfalso
          have hveq : v = "" := by simpa using h
          subst hveq
          exact absurd hdyn (by decide)
      have hmid : substituteStep ev [] (k, expr) = [(k, "")] := by
        simp [substituteStep, hb, lodashGet, hv, hne, hdyn]
      rw [hsplit, hmid]
      simp
    · intro v hv hdyn hne
      have hne' : (v == "") = false := by simpa using hne
      have hmid : substituteStep ev [] (k, expr) = [(k, v)] := by
        simp [substituteStep, hb, lodashGet, hv, hne', hdyn]
      rw [hsplit, hmid]
      simp

/-- Witness for C7 at three concrete lookups: found plain value, found
still-dynamic value, and absent path. -/
theorem substituteParams_roundTrip_witness :
    substituteParams [("formData.x.data", "hello")]
        [("p", "\x7b\x7bactionConfiguration.formData.x.data\x7d\x7d")] =
      [("p", "hello")] ∧
    substituteParams [("formData.x.data", "\x7b\x7bstill\x7d\x7d")]
        [("p", "\x7b\x7bactionConfiguration.formData.x.data\x7d\x7d")] =
      [("p", "")] ∧
    substituteParams []
        [("p", "\x7b\x7bactionConfiguration.formData.x.data\x7d\x7d")] = [] := by
  have h := substituteParams_roundTrip
  refine ⟨?_, ?_, ?_⟩
  · have h3 := ((h.2 [("formData.x.data", "hello")] [] [] "p"
      "\x7b\x7bactionConfiguration.formData.x.data\x7d\x7d" "formData.x.data"
      (by decide)).2.2 "hello" (by decide) (by decide) (by decide))
    simpa [substituteParams] using h3
  · have h2 := ((h.2 [("formData.x.data", "\x7b\x7bstill\x7d\x7d")] [] [] "p"
      "\x7b\x7bactionConfiguration.formData.x.data\x7d\x7d" "formData.x.data"
      (by decide)).2.1 "\x7b\x7bstill\x7d\x7d" (by decide) (by decide))
    simpa [substituteParams] using h2
  · have h1 := ((h.2 [] [] [] "p"
      "\x7b\x7bactionConfiguration.formData.x.data\x7d\x7d" "formData.x.data"
      (by decide)).1 (by decide))
    simpa [substituteParams] using h1

/-! ## Claim theorems: cascade invocation condition (C5) -/

/-- An evaluation output with zero `allowedToFetch = true` fields. -/
def c5CexOutput : FormEvalOutput :=
  [("field1", { fetchDynamicValues := some { allowedToFetch := some false } })]

/-- A cycle environment producing `c5CexOutput` for form `form1`. -/
def c5CexEnv : CycleEnv := { evalResult := .ok (some [("form1", c5CexOutput)]) }

/-- Counterexample to C5 as stated: for an `EvaluationOutput` in which zero
fields have `allowedToFetch = true` the extracted subset is empty, yet the
dynamic-value fetcher IS invoked (with that empty subset), after the
readiness race and the settle delay. -/
theorem cascade_invoked_on_empty_subset_cex :
    extractQueueOfValuesToBeFetched c5CexOutput = [] ∧
    Ev.raceWait ∈
      (setFormEvaluationSagaAsync (fun _ => c5CexEnv) 1 0 {}
        { formId := "form1" }).2 ∧
    Ev.cascadeStart [] "form1" c5CexOutput "" "" ∈
      (setFormEvaluationSagaAsync (fun _ => c5CexEnv) 1 0 {}
        { formId := "form1" }).2 := by
  decide

/-- C5 (amended): after a cycle that ends with an empty queue, the
dynamic-value fetcher is invoked whenever `workerResponse[formId]` is a
non-null object — regardless of whether any field has
`allowedToFetch = true`: the readiness race, the settle delay and the
`fetchDynamicValuesSaga` invocation (receiving the possibly-empty extracted
subset, the form id, the full output and the datasource / plugin ids, empty
string when absent) occur unconditionally on that path. -/
theorem cascade_invocation (env : CycleEnv) (st : SeqState)
    (a : FormEvalAction) (m : List (String × FormEvalOutput))
    (eo : FormEvalOutput)
    (hb : st.isEvaluating = false) (hs : env.selectThrows = false)
    (hp : env.putThrows = false) (hres : env.evalResult = .ok (some m))
    (hq : st.evalQueue = []) (harr : env.arrivals = [])
    (hl : alookup m a.formId = some eo) :
    (setFormEvaluationSagaAsync (fun _ => env) 1 0 st a).2 =
      [Ev.busy true, Ev.evalStart a, Ev.evalEnd, Ev.publish m, Ev.busy false,
       Ev.raceWait, Ev.settleDelay,
       Ev.cascadeStart (extractQueueOfValuesToBeFetched eo) a.formId eo
         (a.datasourceId.getD "") (a.pluginId.getD "")] := by
  simp [setFormEvaluationSagaAsync, hb, hs, hp, hres, hq, harr, hl]

/-- Witness for the amended C5 at the zero-`allowedToFetch` output. -/
theorem cascade_invocation_witness :
    (setFormEvaluationSagaAsync (fun _ => c5CexEnv) 1 0 {}
        { formId := "form1" }).2 =
      [Ev.busy true, Ev.evalStart { formId := "form1" }, Ev.evalEnd,
       Ev.publish [("form1", c5CexOutput)], Ev.busy false,
       Ev.raceWait, Ev.settleDelay,
       Ev.cascadeStart (extractQueueOfValuesToBeFetched c5CexOutput) "form1"
         c5CexOutput "" ""] := by
  exact cascade_invocation c5CexEnv {} { formId := "form1" }
    [("form1", c5CexOutput)] c5CexOutput rfl rfl rfl rfl rfl rfl (by decide)

/-! ## Claim theorems: serialization unit (C1) -/

/-- First request of the C1 scenario. -/
def c1ReqA : FormEvalAction := { formId := "f1" }

/-- Second request of the C1 scenario, submitted while the first is in
flight. -/
def c1ReqB : FormEvalAction := { formId := "f2" }

/-- An output with one field to fetch dynamically. -/
def c1Out : FormEvalOutput :=
  [("fld", { fetchDynamicValues := some { allowedToFetch := some true } })]

/-- Environments of the C1 scenario: the first cycle sees `c1ReqB` arrive
during its evaluation call; both evaluations succeed with a fetchable
output. -/
def c1Envs : Nat → CycleEnv := fun i =>
  if i == 0 then
    { evalResult := .ok (some [("f1", c1Out)]), arrivals := [c1ReqB] }
  else { evalResult := .ok (some [("f2", c1Out)]) }

/-- Counterexample to C1 as stated: in the two-request scenario the busy
flag is NOT held during the fetch cascade (it is cleared before the cascade
begins), the first request's cascade never runs at all (no `cascadeStart`
for form `f1`), and the second request begins nonetheless — so the unit of
serialization is not "one request plus its cascading fetches". -/
theorem serialization_unit_cex :
    cascadeUnderBusy false
      (setFormEvaluationSagaAsync c1Envs 2 0 {} c1ReqA).2 = false ∧
    (setFormEvaluationSagaAsync c1Envs 2 0 {} c1ReqA).2.countP
      (fun e => match e with
        | Ev.cascadeStart _ f _ _ _ => f == "f1"
        | _ => false) = 0 ∧
    processedOf (setFormEvaluationSagaAsync c1Envs 2 0 {} c1ReqA).2 =
      [c1ReqA, c1ReqB] := by
  decide

/-- Total number of requests arriving during the cycles with indices
`ix, ..., ix + fuel - 1`. -/
def arrivalsTotal (envs : Nat → CycleEnv) : Nat → Nat → Nat
  | _, 0 => 0
  | ix, fuel + 1 => (envs ix).arrivals.length + arrivalsTotal envs (ix + 1) fuel

theorem busyAfter_append (b : Bool) (t1 t2 : List Ev) :
    busyAfter b (t1 ++ t2) = busyAfter (busyAfter b t1) t2 := by
  simp [busyAfter, List.foldl_append]

theorem busyAfter_map_enqueued (b : Bool) (l : List FormEvalAction) :
    busyAfter b (l.map Ev.enqueued) = b := by
  induction l generalizing b with
  | nil => rfl
  | cons x xs ih => simpa [busyAfter] using ih b

theorem busyDiscipline_append (b : Bool) (t1 t2 : List Ev) :
    busyDiscipline b (t1 ++ t2) =
      (busyDiscipline b t1 && busyDiscipline (busyAfter b t1) t2) := by
  induction t1 generalizing b with
  | nil => simp [busyDiscipline, busyAfter]
  | cons e r ih =>
    cases e <;>
      simp [busyDiscipline, busyAfter, ih, Bool.and_assoc]

theorem busyDiscipline_map_enqueued (b : Bool) (l : List FormEvalAction) :
    busyDiscipline b (l.map Ev.enqueued) = true := by
  induction l generalizing b with
  | nil => rfl
  | cons x xs ih => simpa [busyDiscipline] using ih b

theorem processedOf_nil : processedOf [] = [] := rfl

theorem processedOf_cons (e : Ev) (t : List Ev) :
    processedOf (e :: t) =
      (match e with | Ev.evalStart a => [a] | _ => []) ++ processedOf t := by
  cases e <;> simp [processedOf, List.filterMap_cons]

theorem enqueuedOf_nil : enqueuedOf [] = [] := rfl

theorem enqueuedOf_cons (e : Ev) (t : List Ev) :
    enqueuedOf (e :: t) =
      (match e with | Ev.enqueued a => [a] | _ => []) ++ enqueuedOf t := by
  cases e <;> simp [enqueuedOf, List.filterMap_cons]

theorem compMarks_nil : compMarks [] = [] := rfl

theorem compMarks_cons (e : Ev) (t : List Ev) :
    compMarks (e :: t) =
      (match e with
        | Ev.evalStart _ => [true]
        | Ev.evalEnd => [false]
        | _ => []) ++ compMarks t := by
  cases e <;> simp [compMarks, List.filterMap_cons]

/-- C1 (amended): requests are processed in strict arrival (FIFO) order
with at most one active evaluation computation at any instant (the trace's
evaluation start / end marks strictly alternate), and every computation runs
with the busy flag held; but the busy flag is CLEARED before the dependent
fetch cascade — the cascade is invoked only when the queue has fully drained
and with the flag already false — so the unit of serialization is one
request's evaluation computation alone, not the computation plus its fetch
cascade: queued requests are forked as soon as the flag clears and the
cascade of an intermediate request is skipped entirely.  Under error-free
environments with sufficient fuel, every submitted request (the initial one,
the initially queued ones and all arrivals) is eventually processed, in
arrival order. -/
theorem sequencer_fifo_single_flight (envs : Nat → CycleEnv) (fuel : Nat) :
    ∀ (ix : Nat) (q0 : List FormEvalAction) (a : FormEvalAction),
    processedOf (setFormEvaluationSagaAsync envs fuel ix ⟨false, q0⟩ a).2 =
      (a :: q0 ++
        enqueuedOf (setFormEvaluationSagaAsync envs fuel ix ⟨false, q0⟩ a).2).take
        (processedOf (setFormEvaluationSagaAsync envs fuel ix ⟨false, q0⟩ a).2).length ∧
    isAlternating true
      (compMarks (setFormEvaluationSagaAsync envs fuel ix ⟨false, q0⟩ a).2) = true ∧
    busyDiscipline false
      (setFormEvaluationSagaAsync envs fuel ix ⟨false, q0⟩ a).2 = true ∧
    (∀ q f eo d p,
      Ev.cascadeStart q f eo d p ∈
        (setFormEvaluationSagaAsync envs fuel ix ⟨false, q0⟩ a).2 →
      (setFormEvaluationSagaAsync envs fuel ix ⟨false, q0⟩ a).1.evalQueue = []) ∧
    ((∀ j, (envs j).selectThrows = false ∧ (envs j).putThrows = false ∧
        ∃ m, (envs j).evalResult = Except.ok (some m)) →
      q0.length + arrivalsTotal envs ix fuel < fuel →
      processedOf (setFormEvaluationSagaAsync envs fuel ix ⟨false, q0⟩ a).2 =
        a :: q0 ++
          enqueuedOf (setFormEvaluationSagaAsync envs fuel ix ⟨false, q0⟩ a).2) := by
  induction fuel with
  | zero =>
    intro ix q0 a
    have hstep : setFormEvaluationSagaAsync envs 0 ix ⟨false, q0⟩ a =
        (⟨false, q0⟩, []) := by
      rw [setFormEvaluationSagaAsync]
      simp
    rw [hstep]
    refine ⟨rfl, rfl, rfl, fun q f eo d p hmem => absurd hmem (by simp), ?_⟩
    intro _ hfuel
    omega
  | succ n ih =>
    intro ix q0 a
    cases hsel : (envs ix).selectThrows with
    | true =>
      have hstep : setFormEvaluationSagaAsync envs (n + 1) ix ⟨false, q0⟩ a =
          (⟨false, q0⟩, [Ev.busy true, Ev.errorLogged, Ev.busy false]) := by
        rw [setFormEvaluationSagaAsync]
        simp [hsel]
      rw [hstep]
      refine ⟨rfl, rfl, rfl, fun q f eo d p hmem => absurd hmem (by simp), ?_⟩
      intro hall _
      exact absurd hsel (by simp [(hall ix).1])
    | false =>
      cases hres : (envs ix).evalResult with
      | error e =>
        have hstep : setFormEvaluationSagaAsync envs (n + 1) ix ⟨false, q0⟩ a =
            (⟨false, q0 ++ (envs ix).arrivals⟩,
             Ev.busy true :: Ev.evalStart a ::
               ((envs ix).arrivals.map Ev.enqueued ++
                 [Ev.errorLogged, Ev.busy false])) := by
          rw [setFormEvaluationSagaAsync]
          simp [hsel, hres]
        rw [hstep]
        refine ⟨?_, ?_, ?_, ?_, ?_⟩
        · simp [processedOf_cons, processedOf_append, processedOf_map_enqueued,
            processedOf_nil, enqueuedOf_cons, enqueuedOf_append,
            enqueuedOf_map_enqueued, enqueuedOf_nil]
        · simp only [compMarks_cons, compMarks_append, compMarks_map_enqueued,
            compMarks_nil, List.nil_append, List.append_nil, List.cons_append]
          simp [isAlternating]
        · simp [busyDiscipline, busyDiscipline_append, busyAfter,
            busyDiscipline_map_enqueued, busyAfter_map_enqueued]
        · intro q f eo d p hmem
          simp at hmem
        · intro hall _
          obtain ⟨m0, hm0⟩ := (hall ix).2.2
          rw [hres] at hm0
          simp at hm0
      | ok wr =>
        cases wr with
        | none =>
          cases hq : q0 ++ (envs ix).arrivals with
          | nil =>
            obtain ⟨hq0, harr⟩ := List.append_eq_nil.mp hq
            have hstep : setFormEvaluationSagaAsync envs (n + 1) ix
                ⟨false, q0⟩ a =
                (⟨false, []⟩,
                 Ev.busy true :: Ev.evalStart a ::
                   ((envs ix).arrivals.map Ev.enqueued ++
                     [Ev.evalEnd, Ev.busy false, Ev.errorLogged,
                      Ev.busy false])) := by
              rw [setFormEvaluationSagaAsync]
              simp [hsel, hres, hq]
            rw [hstep]
            refine ⟨?_, ?_, ?_, ?_, ?_⟩
            · simp [processedOf_cons, processedOf_append,
                processedOf_map_enqueued, processedOf_nil, enqueuedOf_cons,
                enqueuedOf_append, enqueuedOf_map_enqueued, enqueuedOf_nil,
                harr, hq0]
            · simp only [compMarks_cons, compMarks_append,
                compMarks_map_enqueued, compMarks_nil, List.nil_append,
                List.append_nil, List.cons_append]
              simp [isAlternating]
            · simp [busyDiscipline, busyDiscipline_append, busyAfter,
                busyDiscipline_map_enqueued, busyAfter_map_enqueued]
            · intro q f eo d p hmem
              rfl
            · intro hall _
              obtain ⟨m0, hm0⟩ := (hall ix).2.2
              rw [hres] at hm0
              simp at hm0
          | cons b rest =>
            have hstep : setFormEvaluationSagaAsync envs (n + 1) ix
                ⟨false, q0⟩ a =
                ((setFormEvaluationSagaAsync envs n (ix + 1) ⟨false, rest⟩ b).1,
                 Ev.busy true :: Ev.evalStart a ::
                   ((envs ix).arrivals.map Ev.enqueued ++
                     (Ev.evalEnd :: Ev.busy false :: Ev.forkNext b ::
                       (setFormEvaluationSagaAsync envs n (ix + 1)
                         ⟨false, rest⟩ b).2))) := by
              rw [setFormEvaluationSagaAsync]
              simp [hsel, hres, hq]
            obtain ⟨ih1, ih2, ih3, ih4, ih5⟩ := ih (ix + 1) rest b
            rw [hstep]
            have hql : q0 ++ ((envs ix).arrivals ++
                enqueuedOf (setFormEvaluationSagaAsync envs n (ix + 1)
                  ⟨false, rest⟩ b).2) =
                b :: (rest ++ enqueuedOf (setFormEvaluationSagaAsync envs n
                  (ix + 1) ⟨false, rest⟩ b).2) := by
              rw [← List.append_assoc, hq]
              simp
            refine ⟨?_, ?_, ?_, ?_, ?_⟩
            · simp only [processedOf_cons, processedOf_append,
                processedOf_map_enqueued, processedOf_nil, enqueuedOf_cons,
                enqueuedOf_append, enqueuedOf_map_enqueued, enqueuedOf_nil,
                List.nil_append, List.append_nil, List.cons_append,
                List.length_cons, List.take_succ_cons, hql]
              exact congrArg (List.cons a) (by simpa using ih1)
            · simp only [compMarks_cons, compMarks_append,
                compMarks_map_enqueued, compMarks_nil, List.nil_append,
                List.append_nil, List.cons_append]
              simpa [isAlternating] using ih2
            · simp [busyDiscipline, busyDiscipline_append, busyAfter,
                busyDiscipline_map_enqueued, busyAfter_map_enqueued]
              exact ih3
            · intro q f eo d p hmem
              simp at hmem
              exact ih4 q f eo d p hmem
            · intro hall _
              obtain ⟨m0, hm0⟩ := (hall ix).2.2
              rw [hres] at hm0
              simp at hm0
        | some m =>
          cases hput : (envs ix).putThrows with
          | true =>
            have hstep : setFormEvaluationSagaAsync envs (n + 1) ix
                ⟨false, q0⟩ a =
                (⟨false, q0 ++ (envs ix).arrivals⟩,
                 Ev.busy true :: Ev.evalStart a ::
                   ((envs ix).arrivals.map Ev.enqueued ++
                     [Ev.evalEnd, Ev.errorLogged, Ev.busy false])) := by
              rw [setFormEvaluationSagaAsync]
              simp [hsel, hres, hput]
            rw [hstep]
            refine ⟨?_, ?_, ?_, ?_, ?_⟩
            · simp [processedOf_cons, processedOf_append,
                processedOf_map_enqueued, processedOf_nil, enqueuedOf_cons,
                enqueuedOf_append, enqueuedOf_map_enqueued, enqueuedOf_nil]
            · simp only [compMarks_cons, compMarks_append,
                compMarks_map_enqueued, compMarks_nil, List.nil_append,
                List.append_nil, List.cons_append]
              simp [isAlternating]
            · simp [busyDiscipline, busyDiscipline_append, busyAfter,
                busyDiscipline_map_enqueued, busyAfter_map_enqueued]
            · intro q f eo d p hmem
              simp at hmem
            · intro hall _
              exact absurd hput (by simp [(hall ix).2.1])
          | false =>
            cases hq : q0 ++ (envs ix).arrivals with
            | nil =>
              obtain ⟨hq0, harr⟩ := List.append_eq_nil.mp hq
              cases hl : alookup m a.formId with
              | some eo =>
                have hstep : setFormEvaluationSagaAsync envs (n + 1) ix
                    ⟨false, q0⟩ a =
                    (⟨false, []⟩,
                     Ev.busy true :: Ev.evalStart a ::
                       ((envs ix).arrivals.map Ev.enqueued ++
                         [Ev.evalEnd, Ev.publish m, Ev.busy false,
                          Ev.raceWait, Ev.settleDelay,
                          Ev.cascadeStart
                            (extractQueueOfValuesToBeFetched eo) a.formId eo
                            (a.datasourceId.getD "") (a.pluginId.getD "")])) := by
                  rw [setFormEvaluationSagaAsync]
                  simp [hsel, hres, hput, hq, hl]
                rw [hstep]
                refine ⟨?_, ?_, ?_, ?_, ?_⟩
                · simp [processedOf_cons, processedOf_append,
                    processedOf_map_enqueued, processedOf_nil, enqueuedOf_cons,
                    enqueuedOf_append, enqueuedOf_map_enqueued, enqueuedOf_nil,
                    harr, hq0]
                · simp only [compMarks_cons, compMarks_append,
                    compMarks_map_enqueued, compMarks_nil, List.nil_append,
                    List.append_nil, List.cons_append]
                  simp [isAlternating]
                · simp [busyDiscipline, busyDiscipline_append, busyAfter,
                    busyDiscipline_map_enqueued, busyAfter_map_enqueued]
                · intro q f eo2 d p hmem
                  rfl
                · intro hall _
                  subst hq0
                  simp [processedOf_cons, processedOf_append,
                    processedOf_map_enqueued, processedOf_nil, enqueuedOf_cons,
                    enqueuedOf_append, enqueuedOf_map_enqueued, enqueuedOf_nil,
                    harr]
              | none =>
                have hstep : setFormEvaluationSagaAsync envs (n + 1) ix
                    ⟨false, q0⟩ a =
                    (⟨false, []⟩,
                     Ev.busy true :: Ev.evalStart a ::
                       ((envs ix).arrivals.map Ev.enqueued ++
                         [Ev.evalEnd, Ev.publish m, Ev.busy false])) := by
                  rw [setFormEvaluationSagaAsync]
                  simp [hsel, hres, hput, hq, hl]
                rw [hstep]
                refine ⟨?_, ?_, ?_, ?_, ?_⟩
                · simp [processedOf_cons, processedOf_append,
                    processedOf_map_enqueued, processedOf_nil, enqueuedOf_cons,
                    enqueuedOf_append, enqueuedOf_map_enqueued, enqueuedOf_nil,
                    harr, hq0]
                · simp only [compMarks_cons, compMarks_append,
                    compMarks_map_enqueued, compMarks_nil, List.nil_append,
                    List.append_nil, List.cons_append]
                  simp [isAlternating]
                · simp [busyDiscipline, busyDiscipline_append, busyAfter,
                    busyDiscipline_map_enqueued, busyAfter_map_enqueued]
                · intro q f eo2 d p hmem
                  rfl
                · intro hall _
                  subst hq0
                  simp [processedOf_cons, processedOf_append,
                    processedOf_map_enqueued, processedOf_nil, enqueuedOf_cons,
                    enqueuedOf_append, enqueuedOf_map_enqueued, enqueuedOf_nil,
                    harr]
            | cons b rest =>
              have hstep : setFormEvaluationSagaAsync envs (n + 1) ix
                  ⟨false, q0⟩ a =
                  ((setFormEvaluationSagaAsync envs n (ix + 1) ⟨false, rest⟩ b).1,
                   Ev.busy true :: Ev.evalStart a ::
                     ((envs ix).arrivals.map Ev.enqueued ++
                       (Ev.evalEnd :: Ev.publish m :: Ev.busy false ::
                         Ev.forkNext b ::
                         (setFormEvaluationSagaAsync envs n (ix + 1)
                           ⟨false, rest⟩ b).2))) := by
                rw [setFormEvaluationSagaAsync]
                simp [hsel, hres, hput, hq]
              obtain ⟨ih1, ih2, ih3, ih4, ih5⟩ := ih (ix + 1) rest b
              rw [hstep]
              have hql : q0 ++ ((envs ix).arrivals ++
                  enqueuedOf (setFormEvaluationSagaAsync envs n (ix + 1)
                    ⟨false, rest⟩ b).2) =
                  b :: (rest ++ enqueuedOf (setFormEvaluationSagaAsync envs n
                    (ix + 1) ⟨false, rest⟩ b).2) := by
                rw [← List.append_assoc, hq]
                simp
              refine ⟨?_, ?_, ?_, ?_, ?_⟩
              · simp only [processedOf_cons, processedOf_append,
                  processedOf_map_enqueued, processedOf_nil, enqueuedOf_cons,
                  enqueuedOf_append, enqueuedOf_map_enqueued, enqueuedOf_nil,
                  List.nil_append, List.append_nil, List.cons_append,
                  List.length_cons, List.take_succ_cons, hql]
                exact congrArg (List.cons a) (by simpa using ih1)
              · simp only [compMarks_cons, compMarks_append,
                  compMarks_map_enqueued, compMarks_nil, List.nil_append,
                  List.append_nil, List.cons_append]
                simpa [isAlternating] using ih2
              · simp [busyDiscipline, busyDiscipline_append, busyAfter,
                  busyDiscipline_map_enqueued, busyAfter_map_enqueued]
                exact ih3
              · intro q f eo d p hmem
                simp at hmem
                exact ih4 q f eo d p hmem
              · intro hall hfuel
                have hlen : q0.length + (envs ix).arrivals.length
                    = rest.length + 1 := by
                  have := congrArg List.length hq
                  simp at this
                  omega
                have hfuel' : rest.length + arrivalsTotal envs (ix + 1) n < n := by
                  have hart : arrivalsTotal envs ix (n + 1) =
                      (envs ix).arrivals.length + arrivalsTotal envs (ix + 1) n :=
                    rfl
                  omega
                have hcompl := ih5 hall hfuel'
                simp only [processedOf_cons, processedOf_append,
                  processedOf_map_enqueued, processedOf_nil, enqueuedOf_cons,
                  enqueuedOf_append, enqueuedOf_map_enqueued, enqueuedOf_nil,
                  List.nil_append, List.append_nil, List.cons_append, hql,
                  hcompl]

/-- Witness for the amended C1 at the concrete two-request scenario:
both requests are processed, in arrival order, and the busy-flag discipline
holds on the trace. -/
theorem sequencer_fifo_single_flight_witness :
    processedOf (setFormEvaluationSagaAsync c1Envs 3 0 ⟨false, []⟩ c1ReqA).2 =
      c1ReqA :: [] ++
        enqueuedOf (setFormEvaluationSagaAsync c1Envs 3 0 ⟨false, []⟩ c1ReqA).2 ∧
    busyDiscipline false
      (setFormEvaluationSagaAsync c1Envs 3 0 ⟨false, []⟩ c1ReqA).2 = true := by
  have h := sequencer_fifo_single_flight c1Envs 3 0 [] c1ReqA
  have hall : ∀ j, (c1Envs j).selectThrows = false ∧
      (c1Envs j).putThrows = false ∧
      ∃ m, (c1Envs j).evalResult = Except.ok (some m) := by
    intro j
    by_cases hj : (j == 0) = true
    · exact ⟨by simp [c1Envs, hj], by simp [c1Envs, hj],
        ⟨[("f1", c1Out)], by simp [c1Envs, hj]⟩⟩
    · simp only [Bool.not_eq_true] at hj
      exact ⟨by simp [c1Envs, hj], by simp [c1Envs, hj],
        ⟨[("f2", c1Out)], by simp [c1Envs, hj]⟩⟩
  exact ⟨h.2.2.2.2 hall (by decide), h.2.2.1⟩

/-! ## Lemmas for the fetch loop -/

theorem alookup_cons {α : Type} (x : String × α) (rest : List (String × α))
    (k : String) :
    alookup (x :: rest) k = if x.1 == k then some x.2 else alookup rest k := by
  by_cases h : (x.1 == k) = true
  · simp [alookup, List.find?_cons, h]
  · simp only [Bool.not_eq_true] at h
    simp [alookup, List.find?_cons, h]

theorem updateKey_cons {α : Type} (x : String × α) (rest : List (String × α))
    (k : String) (v : α) :
    updateKey (x :: rest) k v =
      (if x.1 == k then (x.1, v) else x) :: updateKey rest k v := rfl

theorem alookup_updateKey_self {α : Type} (l : List (String × α)) (k : String)
    (v : α) :
    alookup (updateKey l k v) k = (alookup l k).map (fun _ => v) := by
  induction l with
  | nil => rfl
  | cons x rest ih =>
    rw [updateKey_cons, alookup_cons, alookup_cons]
    cases hb : (x.1 == k) with
    | true => simp [hb]
    | false => simp [hb, ih]

theorem alookup_updateKey_ne {α : Type} (l : List (String × α)) (k k' : String)
    (v : α) (h : k' ≠ k) :
    alookup (updateKey l k v) k' = alookup l k' := by
  induction l with
  | nil => rfl
  | cons x rest ih =>
    rw [updateKey_cons, alookup_cons, alookup_cons]
    cases hb : (x.1 == k) with
    | true =>
      have hx1 : x.1 = k := by simpa using hb
      have hb' : (x.1 == k') = false := by
        rw [hx1]
        exact beq_eq_false_iff_ne.mpr (Ne.symm h)
      simp [hb, hb', ih]
    | false =>
      cases hb2 : (x.1 == k') with
      | true => simp [hb, hb2]
      | false => simp [hb, hb2, ih]

/-- The overwritten per-field entry: the original `ConditionalOutput` with
its `fetchDynamicValues` member replaced by the result of
`fetchDynamicValueSaga` on the shallow copy. -/
def overwrittenOutput (env : FetchEnv) (value co : ConditionalOutput)
    (formId ds pl k : String) : ConditionalOutput :=
  { co with
    fetchDynamicValues :=
      some (fetchDynamicValueSaga env value (objAssignCopy co.fetchDynamicValues)
        formId ds pl k).1 }

theorem fetchLoop_spec (env : String → FetchEnv) (formId ds pl : String) :
    ∀ (queue : List (String × ConditionalOutput)) (eo : FormEvalOutput),
      (∀ kv ∈ queue, (alookup eo kv.1).isSome = true) →
      (queue.map Prod.fst).Nodup →
      ∃ eo', fetchLoop env formId ds pl queue eo =
          (some eo', queue.map (fun kv => Ev.fetchAttempt kv.1)) ∧
        (∀ k, k ∉ queue.map Prod.fst → alookup eo' k = alookup eo k) ∧
        (∀ k v, (k, v) ∈ queue → ∀ co, alookup eo k = some co →
          alookup eo' k = some (overwrittenOutput (env k) v co formId ds pl k)) := by
  intro queue
  induction queue with
  | nil =>
    intro eo _ _
    exact ⟨eo, rfl, fun _ _ => rfl, fun k v h => absurd h (List.not_mem_nil _)⟩
  | cons kv rest ih =>
    intro eo hkeys hnodup
    obtain ⟨k, val⟩ := kv
    have hk : (alookup eo k).isSome = true :=
      hkeys (k, val) (List.mem_cons_self _ _)
    obtain ⟨co, hco⟩ := Option.isSome_iff_exists.mp hk
    have hknotin : k ∉ rest.map Prod.fst := by
      simp only [List.map_cons, List.nodup_cons] at hnodup
      exact hnodup.1
    have hnodup' : (rest.map Prod.fst).Nodup := by
      simp only [List.map_cons, List.nodup_cons] at hnodup
      exact hnodup.2
    have hkeys' : ∀ kv ∈ rest,
        (alookup (updateKey eo k (overwrittenOutput (env k) val co formId ds pl k))
          kv.1).isSome = true := by
      intro kv hkv
      have hne : kv.1 ≠ k := by
        intro hcontra
        exact hknotin (hcontra ▸ List.mem_map_of_mem Prod.fst hkv)
      rw [alookup_updateKey_ne eo k kv.1 _ hne]
      exact hkeys kv (List.mem_cons_of_mem _ hkv)
    obtain ⟨eo'', heq, hframe, hpt⟩ :=
      ih (updateKey eo k (overwrittenOutput (env k) val co formId ds pl k))
        hkeys' hnodup'
    refine ⟨eo'', ?_, ?_, ?_⟩
    · show fetchLoop env formId ds pl ((k, val) :: rest) eo = _
      rw [fetchLoop, hco]
      simp only [overwrittenOutput] at heq
      simp [heq]
    · intro k0 hk0
      simp only [List.map_cons, List.mem_cons, not_or] at hk0
      rw [hframe k0 hk0.2, alookup_updateKey_ne eo k k0 _ hk0.1]
    · intro k0 v0 hmem co0 hco0
      rcases List.mem_cons.mp hmem with heqkv | hrest
      · injection heqkv with hk0 hv0
        subst hk0; subst hv0
        rw [hco] at hco0
        injection hco0 with hcoeq
        subst hcoeq
        rw [hframe k0 hknotin, alookup_updateKey_self, hco]
        rfl
      · have hne : k0 ≠ k := by
          intro hcontra
          subst hcontra
          exact hknotin (List.mem_map_of_mem Prod.fst hrest)
        have halt : alookup (updateKey eo k
            (overwrittenOutput (env k) val co formId ds pl k)) k0 = some co0 := by
          rw [alookup_updateKey_ne eo k k0 _ hne]
          exact hco0
        exact hpt k0 v0 hrest co0 halt

theorem DVHeap.length_alloc (h : DVHeap) (v : DynamicValues) :
    (h.alloc v).1.cells.length = h.cells.length + 1 := by
  simp [DVHeap.alloc]

theorem DVHeap.length_write (h : DVHeap) (a : Nat) (v : DynamicValues) :
    (h.write a v).cells.length = h.cells.length := by
  simp [DVHeap.write]

theorem DVHeap.read_alloc_lt (h : DVHeap) (v : DynamicValues) (a : Nat)
    (ha : a < h.cells.length) : (h.alloc v).1.read a = h.read a := by
  simp [DVHeap.alloc, DVHeap.read, List.getD_eq_getElem?_getD,
    List.getElem?_append, ha]

theorem DVHeap.read_write_ne (h : DVHeap) (a b : Nat) (v : DynamicValues)
    (hne : b ≠ a) : (h.write b v).read a = h.read a := by
  simp [DVHeap.write, DVHeap.read, List.getD_eq_getElem?_getD,
    List.getElem?_set_ne hne]

theorem fetchLoopHeap_spec (env : String → FetchEnv) (formId ds pl : String) :
    ∀ (queue : List (String × ConditionalOutput)) (eo : List (String × Nat))
      (h : DVHeap),
      (∀ a, a < h.cells.length →
        (fetchLoopHeap env formId ds pl queue eo h).2.read a = h.read a) ∧
      h.cells.length ≤
        (fetchLoopHeap env formId ds pl queue eo h).2.cells.length ∧
      (∀ k, k ∉ queue.map Prod.fst →
        alookup (fetchLoopHeap env formId ds pl queue eo h).1 k =
          alookup eo k) ∧
      ((queue.map Prod.fst).Nodup →
        (∀ kv ∈ queue, (alookup eo kv.1).isSome = true) →
        ∀ kv ∈ queue, ∃ a',
          alookup (fetchLoopHeap env formId ds pl queue eo h).1 kv.1 =
            some a' ∧ h.cells.length ≤ a') := by
  intro queue
  induction queue with
  | nil =>
    intro eo h
    exact ⟨fun _ _ => rfl, Nat.le_refl _, fun _ _ => rfl,
      fun _ _ kv hkv => absurd hkv (List.not_mem_nil _)⟩
  | cons kv0 rest ih =>
    intro eo h
    obtain ⟨k, val⟩ := kv0
    cases haddr : alookup eo k with
    | none =>
      -- the JS TypeError path: the loop stops, nothing else changes
      refine ⟨?_, ?_, ?_, ?_⟩
      · intro a ha
        simp [fetchLoopHeap, haddr]
      · simp [fetchLoopHeap, haddr]
      · intro k0 hk0
        simp [fetchLoopHeap, haddr]
      · intro hnodup hkeys kv hkv
        exfalso
        have := hkeys (k, val) (List.mem_cons_self _ _)
        rw [haddr] at this
        simp at this
    | some addr =>
      set copyCell := h.read addr with hcopy
      set result := (fetchDynamicValueSaga (env k) val ((h.alloc copyCell).1.read (h.alloc copyCell).2)
        formId ds pl k).1 with hresult
      set h2 := (h.alloc copyCell).1.write (h.alloc copyCell).2 result with hh2
      set eo1 := updateKey eo k (h.alloc copyCell).2 with heo1
      have hstep : fetchLoopHeap env formId ds pl ((k, val) :: rest) eo h =
          fetchLoopHeap env formId ds pl rest eo1 h2 := by
        rw [fetchLoopHeap, haddr]
      have hlen2 : h2.cells.length = h.cells.length + 1 := by
        rw [hh2, DVHeap.length_write, DVHeap.length_alloc]
      obtain ⟨ihread, ihlen, ihframe, ihpt⟩ := ih eo1 h2
      refine ⟨?_, ?_, ?_, ?_⟩
      · intro a ha
        rw [hstep, ihread a (by omega)]
        rw [hh2, DVHeap.read_write_ne _ _ _ _ (by simp [DVHeap.alloc]; omega),
          DVHeap.read_alloc_lt _ _ _ ha]
      · rw [hstep]
        omega
      · intro k0 hk0
        simp only [List.map_cons, List.mem_cons, not_or] at hk0
        rw [hstep, ihframe k0 hk0.2, heo1, alookup_updateKey_ne eo k k0 _ hk0.1]
      · intro hnodup hkeys kv hkv
        have hknotin : k ∉ rest.map Prod.fst := by
          simp only [List.map_cons, List.nodup_cons] at hnodup
          exact hnodup.1
        have hnodup' : (rest.map Prod.fst).Nodup := by
          simp only [List.map_cons, List.nodup_cons] at hnodup
          exact hnodup.2
        have hkeys' : ∀ kv ∈ rest, (alookup eo1 kv.1).isSome = true := by
          intro kv2 hkv2
          have hne : kv2.1 ≠ k := by
            intro hcontra
            exact hknotin (hcontra ▸ List.mem_map_of_mem Prod.fst hkv2)
          rw [heo1, alookup_updateKey_ne eo k kv2.1 _ hne]
          exact hkeys kv2 (List.mem_cons_of_mem _ hkv2)
        rcases List.mem_cons.mp hkv with heqkv | hrest
        · subst heqkv
          refine ⟨(h.alloc copyCell).2, ?_, ?_⟩
          · rw [hstep, ihframe k hknotin, heo1, alookup_updateKey_self, haddr]
            rfl
          · simp [DVHeap.alloc]
        · obtain ⟨a', ha1, ha2⟩ := ihpt hnodup' hkeys' kv hrest
          refine ⟨a', ?_, ?_⟩
          · rw [hstep]
            exact ha1
          · omega

/-! ## Claim theorems: the fetch loop (C3) and its frame property (C9) -/

/-- C3: for every pending mapping whose keys exist in `evalOutput` (which
the sequencer guarantees by construction, the queue being extracted from
that same output), `fetchDynamicValuesSaga` invokes `fetchDynamicValueSaga`
once per key, sequentially and in the mapping's insertion order — with each
field's own environment left arbitrary, so one field's failed or throwing
fetch never prevents the remaining fields from being attempted — overwrites
`evalOutput[key].fetchDynamicValues` with that key's result, leaves the
other fields untouched, and publishes the per-form update exactly once,
after all keys have been processed. -/
theorem fetchDynamicValuesSaga_spec (env : String → FetchEnv)
    (queueOfValuesToBeFetched : List (String × ConditionalOutput))
    (formId : String) (evalOutput : FormEvalOutput)
    (datasourceId pluginId : String)
    (hkeys : ∀ kv ∈ queueOfValuesToBeFetched,
      (alookup evalOutput kv.1).isSome = true)
    (hnodup : (queueOfValuesToBeFetched.map Prod.fst).Nodup) :
    ∃ evalOutput',
      fetchDynamicValuesSaga env queueOfValuesToBeFetched formId evalOutput
          datasourceId pluginId =
        (some evalOutput',
         queueOfValuesToBeFetched.map (fun kv => Ev.fetchAttempt kv.1) ++
           [Ev.publish [(formId, evalOutput')]]) ∧
      (∀ k v, (k, v) ∈ queueOfValuesToBeFetched →
        ∀ co, alookup evalOutput k = some co →
          alookup evalOutput' k =
            some (overwrittenOutput (env k) v co formId datasourceId
              pluginId k)) ∧
      (∀ k, k ∉ queueOfValuesToBeFetched.map Prod.fst →
        alookup evalOutput' k = alookup evalOutput k) := by
  obtain ⟨eo', h1, h2, h3⟩ := fetchLoop_spec env formId datasourceId pluginId
    queueOfValuesToBeFetched evalOutput hkeys hnodup
  refine ⟨eo', ?_, h3, h2⟩
  simp [fetchDynamicValuesSaga, h1]

/-- One fetchable field of the spec's two-field scenario. -/
def scenarioField : ConditionalOutput :=
  { fetchDynamicValues := some
      { isLoading := true, allowedToFetch := some true,
        config := some { params := some {} },
        evaluatedConfig := some { params := some {} } } }

/-- The spec's two-field scenario output: fields A and B, both fetchable. -/
def scenarioOutput : FormEvalOutput :=
  [("A", scenarioField), ("B", scenarioField)]

/-- Per-field environments of the scenario: field A's fetch returns 200 with
a trigger payload, field B's fetch throws. -/
def scenarioFetchEnv : String → FetchEnv := fun k =>
  if k == "A" then
    { apiResponse := some { status := 200, trigger := some ["1", "2"] } }
  else { apiResponse := none }

/-- Witness for C3 at the two-field scenario: the published result exists,
both fields are attempted in order (B's throwing fetch does not block), and
exactly one publish closes the trace. -/
theorem fetchDynamicValuesSaga_spec_witness :
    (fetchDynamicValuesSaga scenarioFetchEnv scenarioOutput "form1"
        scenarioOutput "" "").1.isSome = true ∧
    ((fetchDynamicValuesSaga scenarioFetchEnv scenarioOutput "form1"
        scenarioOutput "" "").2.map (fun e =>
          match e with
          | Ev.fetchAttempt k => k
          | Ev.publish _ => "publish"
          | _ => "other")) = ["A", "B", "publish"] := by
  obtain ⟨eo', h1, h2, h3⟩ := fetchDynamicValuesSaga_spec scenarioFetchEnv
    scenarioOutput "form1" scenarioOutput "" "" (by decide) (by decide)
  rw [h1]
  exact ⟨rfl, rfl⟩

/-- C9: `fetchDynamicValueSaga` never mutates the `DynamicValues` object
originally stored in `evalOutput[key].fetchDynamicValues`: the loop hands it
a freshly allocated shallow copy (`Object.assign` of the original), the
result overwrites only that copy's cell, and the original object is replaced
by re-pointing the member at the copy — every heap cell that existed before
the loop reads back unchanged (so the previously published state's
`DynamicValues` objects are never aliased-mutated by an in-flight fetch),
and each processed key ends up pointing at a fresh address, outside the
original heap. -/
theorem fetchLoopHeap_frame (env : String → FetchEnv)
    (formId datasourceId pluginId : String)
    (queue : List (String × ConditionalOutput)) (eo : List (String × Nat))
    (h : DVHeap)
    (hnodup : (queue.map Prod.fst).Nodup)
    (hkeys : ∀ kv ∈ queue, (alookup eo kv.1).isSome = true) :
    (∀ a, a < h.cells.length →
      (fetchLoopHeap env formId datasourceId pluginId queue eo h).2.read a =
        h.read a) ∧
    (∀ kv ∈ queue, ∃ a',
      alookup (fetchLoopHeap env formId datasourceId pluginId queue eo h).1
          kv.1 = some a' ∧
      h.cells.length ≤ a') := by
  obtain ⟨h1, _, _, h4⟩ :=
    fetchLoopHeap_spec env formId datasourceId pluginId queue eo h
  exact ⟨h1, h4 hnodup hkeys⟩

/-- Witness for C9: a one-field loop over a one-cell heap leaves the
original cell unchanged. -/
theorem fetchLoopHeap_frame_witness :
    (fetchLoopHeap (fun _ => {}) "form1" "" "" [("A", scenarioField)]
        [("A", 0)] ⟨[{ hasStarted := true }]⟩).2.read 0 =
      ({ hasStarted := true } : DynamicValues) := by
  have h := fetchLoopHeap_frame (fun _ => {}) "form1" "" ""
    [("A", scenarioField)] [("A", 0)] ⟨[{ hasStarted := true }]⟩
    (by decide) (by decide)
  rw [h.1 0 (by decide)]
  rfl
